import Mathlib

/-!
Verification of the Interactive Session Buffer & Completion-Detection Engine
(`ShellManager`): the line reassembler (stream data handler), the buffer
read/clear API, the signal emulator, the prompt classifier and the per-tick
decision logic of the completion detector, modelled as pure functions over an
explicit session state.  Strings are modelled as `List Char`.
-/

namespace ShellMgr

/-- Text is modelled as a list of characters. -/
abbrev Str := List Char

/-- Configuration knobs of the engine (`ShellConfig` in the source). -/
structure ShellConfig where
  quickTimeout : Nat
  maxTimeout : Nat
  maxLines : Nat
  maxBufferLines : Nat
deriving Repr, DecidableEq

/-- The fixed defaults (`DEFAULT_CONFIG` in the source). -/
def DEFAULT_CONFIG : ShellConfig :=
  { quickTimeout := 2000, maxTimeout := 5000, maxLines := 200, maxBufferLines := 10000 }

/-- Result record returned by `send`/`read` (`ShellResult` in the source).
Optional booleans are `Option Bool`: the source writes `truncated || undefined`
etc., so a `false` argument is surfaced as the absent value `none`. -/
structure ShellResult where
  output : Str
  totalLines : Nat
  complete : Bool
  truncated : Option Bool
  slow : Option Bool
  waiting : Option Bool
  message : Str
deriving Repr, DecidableEq

/-- Mutable state of a `ShellManager` session: whether a channel is open, the
completed-line buffer (`outputLines`) and the pending partial line
(`outputBuffer`). -/
structure ShellState where
  shellOpen : Bool
  outputLines : List Str
  outputBuffer : Str
deriving Repr, DecidableEq

/-- The state right after `setupStream`: empty buffers, open channel. -/
def freshState : ShellState := { shellOpen := true, outputLines := [], outputBuffer := [] }

/-- Concatenation of a list of strings (no separator). -/
def joinAll : List Str → Str
  | [] => []
  | s :: rest => s ++ joinAll rest

/-- JavaScript `Array.prototype.join("\n")`. -/
def joinNL : List Str → Str
  | [] => []
  | [s] => s
  | s :: rest => s ++ '\n' :: joinNL rest

/-- JavaScript `Array.prototype.slice(start, end)` with possibly negative
indices (negative values count from the end, results are clamped). -/
def jsSlice {α : Type} (xs : List α) (start fin : Int) : List α :=
  let len : Int := xs.length
  let k : Int := if start < 0 then max (len + start) 0 else min start len
  let e : Int := if fin < 0 then max (len + fin) 0 else min fin len
  (xs.take e.toNat).drop k.toNat

/-- JavaScript `String.prototype.split("\n")`: always returns at least one
segment; the last segment is the text after the final terminator. -/
def splitOnNL : Str → List Str
  | [] => [[]]
  | c :: rest =>
    if c = '\n' then [] :: splitOnNL rest
    else
      match splitOnNL rest with
      | [] => [[c]]
      | h :: t => (c :: h) :: t

/-- The stream `data` handler installed by `setupStream`: append the chunk to
the pending partial line, split on `"\n"`, keep the last segment as the new
pending partial line, append the other segments to the completed-line buffer,
then evict with `slice(-maxBufferLines)` when the buffer exceeds
`maxBufferLines`. -/
def ingestChunk (cfg : ShellConfig) (st : ShellState) (chunk : Str) : ShellState :=
  let combined := st.outputBuffer ++ chunk
  let parts := splitOnNL combined
  let newBuffer := parts.getLast?.getD []
  let lines1 := st.outputLines ++ parts.dropLast
  let lines2 :=
    if cfg.maxBufferLines < lines1.length then
      jsSlice lines1 (-(cfg.maxBufferLines : Int)) (lines1.length : Int)
    else lines1
  { st with outputLines := lines2, outputBuffer := newBuffer }

/-- Feeding a sequence of chunks to the data handler, in order. -/
def ingestAll (cfg : ShellConfig) (st : ShellState) (chunks : List Str) : ShellState :=
  chunks.foldl (ingestChunk cfg) st

/-- `getBufferLineCount()`: completed lines plus one when a partial line is
pending. -/
def getBufferLineCount (st : ShellState) : Nat :=
  st.outputLines.length + (if st.outputBuffer = [] then 0 else 1)

/-- Decimal rendering of a line count, used inside result messages. -/
def natStr (n : Nat) : Str := (Nat.repr n).data

/-- Truthiness of the `effectiveLines` value in `read`: JavaScript treats both
`undefined` and `0` as falsy. -/
def optTruthy : Option Int → Bool
  | none => false
  | some n => decide (n ≠ 0)

/-- The `effectiveLines` computation of `read`: `undefined` defaults to 20,
`-1` becomes `undefined` (return everything), any other value passes
through. -/
def effectiveLinesOf : Option Int → Option Int
  | none => some 20
  | some n => if n = -1 then none else some n

/-- `ShellManager.read(lines?, offset?, clear?)`, returning the result together
with the post-call state (`clear = true` empties both buffers after the result
has been computed). -/
def read (st : ShellState) (lines : Option Int) (offset : Option Int) (clear : Bool) :
    ShellResult × ShellState :=
  let startIdx : Int := offset.getD 0
  let effectiveLines : Option Int := effectiveLinesOf lines
  let endIdx : Int :=
    if optTruthy effectiveLines then startIdx + effectiveLines.getD 0
    else (st.outputLines.length : Int)
  let selectedLines := jsSlice st.outputLines startIdx endIdx
  let base := joinNL selectedLines
  let output :=
    if st.outputBuffer ≠ [] ∧ (optTruthy effectiveLines = false ∨ (st.outputLines.length : Int) ≤ endIdx) then
      (if base = [] then st.outputBuffer else base ++ '\n' :: st.outputBuffer)
    else base
  let result : ShellResult :=
    { output := output
      totalLines := st.outputLines.length + (if st.outputBuffer = [] then 0 else 1)
      complete := true
      truncated := none
      slow := none
      waiting := none
      message := "读取了 ".data ++ natStr selectedLines.length ++ " 行".data }
  let st' := if clear then { st with outputLines := [], outputBuffer := [] } else st
  (result, st')

/-- The control-character table of `sendSignal`. -/
def signalChar (signal : Str) : Option Char :=
  if signal = "SIGINT".data then some '\x03'
  else if signal = "SIGTSTP".data then some '\x1a'
  else if signal = "SIGQUIT".data then some '\x1c'
  else none

/-- `ShellManager.sendSignal(signal)`: the boolean result paired with the list
of strings written to the channel. -/
def sendSignal (st : ShellState) (signal : Str) : Bool × List Str :=
  if st.shellOpen = false then (false, [])
  else
    match signalChar signal with
    | some c => (true, [[c]])
    | none => (false, [])

/-- The synchronous prefix of `ShellManager.send(input)`: on an open shell it
records the submission window (`startLineCount`), resets the pending partial
line, and writes `input + "\n"` to the channel; on a closed shell it does
nothing.  Returns the post-state, the channel writes, and the submission
window (`none` when the shell was closed). -/
def sendPrep (st : ShellState) (input : Str) : ShellState × List Str × Option Nat :=
  if st.shellOpen then
    ({ st with outputBuffer := [] }, [input ++ ['\n']], some st.outputLines.length)
  else (st, [], none)

/-- The JavaScript `\s` character class (whitespace as used by `trim` and the
`\s*` parts of the prompt patterns). -/
def isWS (c : Char) : Bool :=
  c = ' ' || c = '\t' || c = '\n' || c = '\x0b' || c = '\x0c' || c = '\r' ||
  c = ' ' || c = ' ' || (0x2000 ≤ c.toNat && c.toNat ≤ 0x200a) ||
  c = ' ' || c = ' ' || c = ' ' || c = ' ' || c = '　' || c = '﻿'

/-- JavaScript `String.prototype.trim()`. -/
def trimStr (s : Str) : Str := ((s.dropWhile isWS).reverse.dropWhile isWS).reverse

/-- Remainder of the input after a `[0-9;]*[a-zA-Z]` match (the tail of the
CSI regex `\x1b\[[0-9;]*[a-zA-Z]`), bundled with a length bound. -/
def csiTail (s : Str) : Option { t : Str // t.length ≤ s.length } :=
  match s with
  | [] => none
  | c :: rest =>
    if c.isDigit ∨ c = ';' then
      (csiTail rest).map fun t => ⟨t.1, Nat.le_trans t.2 (Nat.le_succ _)⟩
    else if c.isAlpha then some ⟨rest, Nat.le_succ _⟩
    else none

/-- Remainder after `[^\x07]*\x07` (the tail of the OSC-BEL regex
`\x1b\][^\x07]*\x07`). -/
def oscBelTail (s : Str) : Option { t : Str // t.length ≤ s.length } :=
  match s with
  | [] => none
  | c :: rest =>
    if c = '\x07' then some ⟨rest, Nat.le_succ _⟩
    else (oscBelTail rest).map fun t => ⟨t.1, Nat.le_trans t.2 (Nat.le_succ _)⟩

/-- Remainder after `[^\x1b]*\x1b\\` (the tail of the OSC-ST regex
`\x1b\][^\x1b]*\x1b\\`). -/
def oscStTail (s : Str) : Option { t : Str // t.length ≤ s.length } :=
  match s with
  | [] => none
  | c :: rest =>
    if c = '\x1b' then
      match rest with
      | '\\' :: r => some ⟨r, by simp [Nat.le_succ_of_le]⟩
      | _ => none
    else (oscStTail rest).map fun t => ⟨t.1, Nat.le_trans t.2 (Nat.le_succ _)⟩

/-- Global replacement of `\x1b\[[0-9;]*[a-zA-Z]` by the empty string
(first `replace` in `detectPrompt`). -/
def stripCSIFuel : Nat → Str → Str
  | 0, s => s
  | _ + 1, [] => []
  | fuel + 1, '\x1b' :: '[' :: rest2 =>
    (match csiTail rest2 with
     | some t => stripCSIFuel fuel t.1
     | none => '\x1b' :: stripCSIFuel fuel ('[' :: rest2))
  | fuel + 1, c :: rest => c :: stripCSIFuel fuel rest

/-- Entry point of the CSI replacement: the fuel (one unit per scan step)
never runs out because every step shortens the string. -/
def stripCSI (s : Str) : Str := stripCSIFuel s.length s

/-- Global replacement of `\x1b\][^\x07]*\x07` by the empty string
(second `replace` in `detectPrompt`). -/
def stripOscBelFuel : Nat → Str → Str
  | 0, s => s
  | _ + 1, [] => []
  | fuel + 1, '\x1b' :: ']' :: rest2 =>
    (match oscBelTail rest2 with
     | some t => stripOscBelFuel fuel t.1
     | none => '\x1b' :: stripOscBelFuel fuel (']' :: rest2))
  | fuel + 1, c :: rest => c :: stripOscBelFuel fuel rest

/-- Entry point of the OSC-BEL replacement. -/
def stripOscBel (s : Str) : Str := stripOscBelFuel s.length s

/-- Global replacement of `\x1b\][^\x1b]*\x1b\\` by the empty string
(third `replace` in `detectPrompt`). -/
def stripOscStFuel : Nat → Str → Str
  | 0, s => s
  | _ + 1, [] => []
  | fuel + 1, '\x1b' :: ']' :: rest2 =>
    (match oscStTail rest2 with
     | some t => stripOscStFuel fuel t.1
     | none => '\x1b' :: stripOscStFuel fuel (']' :: rest2))
  | fuel + 1, c :: rest => c :: stripOscStFuel fuel rest

/-- Entry point of the OSC-ST replacement. -/
def stripOscSt (s : Str) : Str := stripOscStFuel s.length s

/-- Removal of the remaining control characters, `[\x00-\x1f]` (fourth
`replace` in `detectPrompt`). -/
def removeCtl (s : Str) : Str := s.filter (fun c => decide (0x1f < c.toNat))

/-- The cleaned line tested by the prompt patterns: the four global
replacements followed by `trim()`. -/
def cleanPromptLine (s : Str) : Str :=
  trimStr (removeCtl (stripOscSt (stripOscBel (stripCSI s))))

/-- The character class `[$#>]` used by several prompt patterns. -/
def sigil (c : Char) : Bool := c = '$' || c = '#' || c = '>'

/-- The JavaScript `.` (any character but a line terminator). -/
def dotChar (c : Char) : Bool :=
  !(c = '\n' || c = '\r' || c = ' ' || c = ' ')

/-- Test of `/\$\s*$/`, `/#\s*$/`, `/>\s*$/`, `/❯\s*$/` or `/λ\s*$/`:
the string ends with the character followed by optional whitespace. -/
def patEndChar (d : Char) (s : Str) : Bool :=
  (s.reverse.dropWhile isWS).head? = some d

/-- Test of `/\]\$\s*$/` or `/\]#\s*$/`. -/
def patBracket (d : Char) (s : Str) : Bool :=
  match s.reverse.dropWhile isWS with
  | y :: x :: _ => y = d && x = ']'
  | _ => false

/-- Test of `/\)\s*[$#>]\s*$/` or `/~\s*[$#>]\s*$/` (parameter `b` is `)`
or `~`). -/
def patCharSigil (b : Char) (s : Str) : Bool :=
  match s.reverse.dropWhile isWS with
  | d :: rest => sigil d && ((rest.dropWhile isWS).head? = some b)
  | [] => false

/-- Test of `/@.*:\s*[$#>]\s*$/`. -/
def patAtHost (s : Str) : Bool :=
  match s.reverse.dropWhile isWS with
  | d :: rest =>
    sigil d &&
      (match rest.dropWhile isWS with
       | ':' :: before => (before.takeWhile dotChar).contains '@'
       | _ => false)
  | [] => false

/-- Test of `/^➜\s+/`. -/
def patArrow (s : Str) : Bool :=
  match s with
  | '➜' :: c :: _ => isWS c
  | _ => false

/-- Test of `/^\s*%\s*$/`. -/
def patPercent (s : Str) : Bool :=
  match s.dropWhile isWS with
  | '%' :: rest => rest.all isWS
  | _ => false

/-- `ShellManager.detectPrompt(line)`: strip terminal control sequences, trim,
reject the empty line, then test the twelve prompt patterns. -/
def detectPrompt (line : Str) : Bool :=
  let cleanLine := cleanPromptLine line
  if cleanLine = [] then false
  else
    patEndChar '$' cleanLine || patEndChar '#' cleanLine || patEndChar '>' cleanLine ||
    patBracket '$' cleanLine || patBracket '#' cleanLine ||
    patCharSigil ')' cleanLine || patCharSigil '~' cleanLine ||
    patAtHost cleanLine ||
    patArrow cleanLine || patEndChar '❯' cleanLine || patEndChar 'λ' cleanLine ||
    patPercent cleanLine

/-- Content after the final carriage return of a line (`lastIndexOf("\r")`
handling in `waitForCompletion`): the currently visible text. -/
def afterLastCR (s : Str) : Str :=
  (s.reverse.takeWhile (fun c => decide (c ≠ '\r'))).reverse

/-- The line the poll loop feeds to the prompt classifier: the pending partial
line when nonempty, otherwise the last new completed line, with only the text
after its final carriage return kept. -/
def lastVisibleLine (st : ShellState) (startLineCount : Nat) : Str :=
  let newLines := st.outputLines.drop startLineCount
  afterLastCR (if st.outputBuffer = [] then newLines.getLast?.getD [] else st.outputBuffer)

/-- `ShellManager.buildResult`: assembles the result record; false booleans
become absent (`x || undefined`), and the message quotes `this.config.maxLines`
of the manager's own configuration. -/
def buildResult (mgrCfg : ShellConfig) (output : Str) (totalLines : Nat)
    (complete truncated slow waiting : Bool) : ShellResult :=
  let message : Str :=
    if complete then
      (if slow then "命令执行完成（耗时较长），共 ".data ++ natStr totalLines ++ " 行".data
       else "命令执行完成，共 ".data ++ natStr totalLines ++ " 行".data)
    else if truncated then
      "输出超时，已截断至最近 ".data ++ natStr mgrCfg.maxLines ++
        " 行（共 ".data ++ natStr totalLines ++ " 行）。使用 read 获取完整输出。".data
    else if waiting then
      "输出已稳定，命令可能在等待输入或仍在运行。共 ".data ++ natStr totalLines ++ " 行。".data
    else "共 ".data ++ natStr totalLines ++ " 行".data
  { output := output
    totalLines := totalLines
    complete := complete
    truncated := if truncated then some true else none
    slow := if slow then some true else none
    waiting := if waiting then some true else none
    message := message }

/-- The timing quantities a poll tick observes: elapsed time since
submission, time since the last byte arrived, and the stability counter after
its in-tick update. -/
structure PollObs where
  elapsed : Nat
  timeSinceLastOutput : Nat
  stableCount : Nat
deriving Repr, DecidableEq

/-- One tick of the `waitForCompletion` poll loop: given the observed timings
and the current session state, either resolve with a result (strategies A-D,
first match wins) or keep polling (`none`).  The session state is returned
unchanged: the tick only reads the buffers. -/
def pollTick (mgrCfg cfg : ShellConfig) (st : ShellState) (startLineCount : Nat)
    (obs : PollObs) : Option ShellResult × ShellState :=
  let newLines := st.outputLines.drop startLineCount
  let currentOutput :=
    joinNL newLines ++ (if st.outputBuffer = [] then [] else '\n' :: st.outputBuffer)
  let hasPrompt := detectPrompt (lastVisibleLine st startLineCount)
  let res : Option ShellResult :=
    if obs.elapsed ≤ cfg.quickTimeout ∧ hasPrompt = true ∧ 2 ≤ obs.stableCount then
      some (buildResult mgrCfg currentOutput newLines.length true false false false)
    else if cfg.quickTimeout < obs.elapsed ∧ obs.elapsed ≤ cfg.maxTimeout ∧ hasPrompt = true ∧ 2 ≤ obs.stableCount then
      some (buildResult mgrCfg currentOutput newLines.length true false true false)
    else if cfg.maxTimeout < obs.elapsed then
      let truncated := decide (cfg.maxLines < newLines.length)
      let truncatedLines :=
        if truncated then jsSlice newLines (-(cfg.maxLines : Int)) (newLines.length : Int)
        else newLines
      let truncatedOutput :=
        joinNL truncatedLines ++ (if st.outputBuffer = [] then [] else '\n' :: st.outputBuffer)
      some (buildResult mgrCfg truncatedOutput newLines.length hasPrompt truncated true (!hasPrompt))
    else if 500 < obs.timeSinceLastOutput ∧ 5 ≤ obs.stableCount ∧ 1000 < obs.elapsed then
      some (buildResult mgrCfg currentOutput newLines.length false false false true)
    else none
  (res, st)

/-- Spec-side description of a read output: the selected window joined with
newlines, with the pending partial line appended exactly when the requested
window reaches the end of the completed-line buffer. -/
def assemble (st : ShellState) (selected : List Str) (reachesEnd : Bool) : Str :=
  let base := joinNL selected
  if st.outputBuffer ≠ [] ∧ reachesEnd = true then
    (if base = [] then st.outputBuffer else base ++ '\n' :: st.outputBuffer)
  else base

/-- The full buffer content: every completed line joined with newlines, plus
the pending partial line. -/
def fullJoin (st : ShellState) : Str := assemble st st.outputLines true

/-- The most recent `n` elements of a list. -/
def lastN {α : Type} (n : Nat) (xs : List α) : List α := xs.drop (xs.length - n)

/-- Configuration with a one-line completed-line buffer cap. -/
def cfgMax1 : ShellConfig := { quickTimeout := 2000, maxTimeout := 5000, maxLines := 200, maxBufferLines := 1 }

/-- Configuration with a zero-line completed-line buffer cap. -/
def cfgMax0 : ShellConfig := { quickTimeout := 2000, maxTimeout := 5000, maxLines := 200, maxBufferLines := 0 }

/-- Configuration with a two-line completed-line buffer cap. -/
def cfgMax2 : ShellConfig := { quickTimeout := 2000, maxTimeout := 5000, maxLines := 200, maxBufferLines := 2 }

/-- A session holding 21 completed lines: `"a"` followed by twenty `"b"`. -/
def st21 : ShellState :=
  { shellOpen := true, outputLines := ['a'] :: List.replicate 20 ['b'], outputBuffer := [] }

/-- A small session: three completed lines and a pending partial line. -/
def stABC : ShellState :=
  { shellOpen := true, outputLines := [['a'], ['b'], ['c']], outputBuffer := ['d'] }

/-- The session state of the echo scenario: `"hi"` completed, the prompt
pending without a terminator. -/
def stEcho : ShellState :=
  { shellOpen := true, outputLines := [['h', 'i']], outputBuffer := "user@host:~$ ".data }

/-- Tick observation of the echo scenario: 300 ms elapsed, two stable ticks. -/
def obsEcho : PollObs := { elapsed := 300, timeSinceLastOutput := 200, stableCount := 2 }

/-- A session with 201 completed lines and no pending partial line. -/
def stLong : ShellState :=
  { shellOpen := true, outputLines := List.replicate 201 ['x'], outputBuffer := [] }

/-- Tick observation past the maximum timeout. -/
def obsLong : PollObs := { elapsed := 5100, timeSinceLastOutput := 100, stableCount := 0 }

/-- A session whose channel is closed. -/
def stClosed : ShellState := { shellOpen := false, outputLines := [], outputBuffer := [] }

/-- An open session with one completed line and a pending partial line. -/
def stPartial : ShellState :=
  { shellOpen := true, outputLines := [['a']], outputBuffer := ['p', 'q'] }

end ShellMgr

namespace ShellMgr

/-! Helper lemmas about `jsSlice`, `splitOnNL`, `joinAll` and `joinNL`. -/

theorem take_min_length {α : Type} (xs : List α) (b : Nat) :
    xs.take (min b xs.length) = xs.take b := by
  rcases Nat.le_total b xs.length with h | h
  · rw [Nat.min_eq_left h]
  · rw [Nat.min_eq_right h, List.take_length, List.take_of_length_le h]

theorem drop_min_length {α : Type} (ys : List α) (a L : Nat) (h : ys.length ≤ L) :
    ys.drop (min a L) = ys.drop a := by
  rcases Nat.le_total a L with h' | h'
  · rw [Nat.min_eq_left h']
  · rw [Nat.min_eq_right h', List.drop_eq_nil_of_le h,
      List.drop_eq_nil_of_le (Nat.le_trans h h')]

theorem jsSlice_nat {α : Type} (xs : List α) (a b : Nat) :
    jsSlice xs (a : Int) (b : Int) = (xs.take b).drop a := by
  simp only [jsSlice]
  have ha : ¬ ((a : Int) < 0) := by omega
  have hb : ¬ ((b : Int) < 0) := by omega
  rw [if_neg ha, if_neg hb]
  have h1 : (min (a : Int) ((xs.length : Nat) : Int)).toNat = min a xs.length := by omega
  have h2 : (min (b : Int) ((xs.length : Nat) : Int)).toNat = min b xs.length := by omega
  rw [h1, h2, take_min_length]
  exact drop_min_length _ _ _ (by rw [List.length_take]; omega)

theorem jsSlice_all {α : Type} (xs : List α) :
    jsSlice xs 0 (xs.length : Int) = xs := by
  have h := jsSlice_nat xs 0 xs.length
  simpa [List.take_length xs, List.drop_zero] using h

theorem jsSlice_drop_take {α : Type} (xs : List α) (o m : Nat) :
    jsSlice xs (o : Int) ((o : Int) + (m : Int)) = (xs.drop o).take m := by
  have hcast : ((o : Int) + (m : Int)) = (((o + m : Nat)) : Int) := by push_cast; ring
  rw [hcast, jsSlice_nat, List.drop_take]
  congr 1
  omega

theorem splitOnNL_ne_nil (s : Str) : splitOnNL s ≠ [] := by
  induction s with
  | nil => simp [splitOnNL]
  | cons c rest ih =>
    simp only [splitOnNL]
    split
    · simp
    · cases h : splitOnNL rest with
      | nil => simp
      | cons a t => simp

theorem joinAll_append (xs ys : List Str) : joinAll (xs ++ ys) = joinAll xs ++ joinAll ys := by
  induction xs with
  | nil => simp [joinAll]
  | cons a t ih => simp [joinAll, ih]

theorem joinAll_splitOnNL (s : Str) :
    joinAll (splitOnNL s) = s.filter (fun c => decide (c ≠ '\n')) := by
  induction s with
  | nil => simp [splitOnNL, joinAll]
  | cons c rest ih =>
    simp only [splitOnNL]
    by_cases hc : c = '\n'
    · rw [if_pos hc]
      subst hc
      simp only [joinAll, List.nil_append, ih, List.filter_cons]
      simp
    · rw [if_neg hc]
      cases h : splitOnNL rest with
      | nil => exact absurd h (splitOnNL_ne_nil rest)
      | cons a t =>
        have ha : joinAll ((c :: a) :: t) = c :: joinAll (a :: t) := by
          simp [joinAll]
        rw [ha, ← h, ih, List.filter_cons]
        simp [hc]

theorem splitOnNL_length (s : Str) :
    (splitOnNL s).length = s.count '\n' + 1 := by
  induction s with
  | nil => simp [splitOnNL]
  | cons c rest ih =>
    simp only [splitOnNL]
    by_cases hc : c = '\n'
    · rw [if_pos hc]
      subst hc
      simp only [List.length_cons, ih, List.count_cons]
      simp
    · rw [if_neg hc]
      cases h : splitOnNL rest with
      | nil => exact absurd h (splitOnNL_ne_nil rest)
      | cons a t =>
        have := ih
        rw [h] at this
        simp only [List.length_cons] at this ⊢
        rw [List.count_cons]
        simp only [beq_iff_eq]
        rw [if_neg (fun hEq => hc hEq)]
        omega

theorem splitOnNL_parts_no_nl (s : Str) : ∀ p ∈ splitOnNL s, '\n' ∉ p := by
  induction s with
  | nil =>
    intro p hp
    simp [splitOnNL] at hp
    subst hp
    simp
  | cons c rest ih =>
    intro p hp
    simp only [splitOnNL] at hp
    by_cases hc : c = '\n'
    · rw [if_pos hc] at hp
      rcases List.mem_cons.mp hp with h | h
      · subst h; simp
      · exact ih p h
    · rw [if_neg hc] at hp
      cases h : splitOnNL rest with
      | nil => exact absurd h (splitOnNL_ne_nil rest)
      | cons a t =>
        rw [h] at hp
        rcases List.mem_cons.mp hp with h1 | h1
        · subst h1
          intro hmem
          rcases List.mem_cons.mp hmem with h2 | h2
          · exact hc h2.symm
          · exact ih a (h ▸ List.mem_cons_self a t) h2
        · exact ih p (h ▸ List.mem_cons_of_mem a h1)

theorem getLast_getD_no_nl (s : Str) : '\n' ∉ (splitOnNL s).getLast?.getD [] := by
  have hne := splitOnNL_ne_nil s
  rw [List.getLast?_eq_getLast _ hne]
  simp only [Option.getD_some]
  exact splitOnNL_parts_no_nl s _ (List.getLast_mem hne)

theorem joinAll_dropLast_getLast (l : List Str) (h : l ≠ []) :
    joinAll l.dropLast ++ (l.getLast?.getD []) = joinAll l := by
  conv_rhs => rw [← List.dropLast_append_getLast h]
  rw [joinAll_append, List.getLast?_eq_getLast l h]
  simp [joinAll]

theorem jsSlice_last {α : Type} (xs : List α) (m : Nat) (hm : 0 < m) :
    jsSlice xs (-(m : Int)) (xs.length : Int) = xs.drop (xs.length - m) := by
  simp only [jsSlice]
  have hneg : (-(m : Int)) < 0 := by omega
  have hpos : ¬ ((xs.length : Int) < 0) := by omega
  rw [if_pos hneg, if_neg hpos]
  have h1 : (max ((xs.length : Int) + -(m : Int)) 0).toNat = xs.length - m := by omega
  have h2 : (min ((xs.length : Int)) ((xs.length : Int))).toNat = xs.length := by omega
  rw [h1, h2, List.take_length]

theorem ingestChunk_no_evict (cfg : ShellConfig) (st : ShellState) (chunk consumed : Str)
    (h1 : joinAll st.outputLines ++ st.outputBuffer = consumed.filter (fun c => decide (c ≠ '\n')))
    (h2 : st.outputLines.length = consumed.count '\n')
    (h3 : '\n' ∉ st.outputBuffer)
    (hle : (consumed ++ chunk).count '\n' ≤ cfg.maxBufferLines) :
    joinAll (ingestChunk cfg st chunk).outputLines ++ (ingestChunk cfg st chunk).outputBuffer
        = (consumed ++ chunk).filter (fun c => decide (c ≠ '\n'))
    ∧ (ingestChunk cfg st chunk).outputLines.length = (consumed ++ chunk).count '\n'
    ∧ '\n' ∉ (ingestChunk cfg st chunk).outputBuffer := by
  have hbc : (st.outputBuffer ++ chunk).count '\n' = chunk.count '\n' := by
    rw [List.count_append, List.count_eq_zero.mpr h3]
    omega
  have hlen1 :
      (st.outputLines ++ (splitOnNL (st.outputBuffer ++ chunk)).dropLast).length
        = (consumed ++ chunk).count '\n' := by
    rw [List.length_append, List.length_dropLast, splitOnNL_length, hbc, h2,
      List.count_append]
    omega
  have hno :
      ¬ (cfg.maxBufferLines <
          (st.outputLines ++ (splitOnNL (st.outputBuffer ++ chunk)).dropLast).length) := by
    rw [hlen1]; omega
  simp only [ingestChunk]
  rw [if_neg hno]
  refine ⟨?_, hlen1, getLast_getD_no_nl _⟩
  rw [joinAll_append, List.append_assoc,
    joinAll_dropLast_getLast _ (splitOnNL_ne_nil _), joinAll_splitOnNL,
    List.filter_append, List.filter_append]
  have hfb : st.outputBuffer.filter (fun c => decide (c ≠ '\n')) = st.outputBuffer :=
    List.filter_eq_self.mpr (fun a ha => by
      simp only [decide_eq_true_eq]
      intro hEq
      exact h3 (hEq ▸ ha))
  rw [hfb, ← List.append_assoc, h1]

theorem ingestAll_no_evict (cfg : ShellConfig) (chunks : List Str) :
    ∀ (st : ShellState) (consumed : Str),
      joinAll st.outputLines ++ st.outputBuffer = consumed.filter (fun c => decide (c ≠ '\n')) →
      st.outputLines.length = consumed.count '\n' →
      '\n' ∉ st.outputBuffer →
      (consumed ++ joinAll chunks).count '\n' ≤ cfg.maxBufferLines →
      joinAll (ingestAll cfg st chunks).outputLines ++ (ingestAll cfg st chunks).outputBuffer
          = (consumed ++ joinAll chunks).filter (fun c => decide (c ≠ '\n'))
      ∧ (ingestAll cfg st chunks).outputLines.length = (consumed ++ joinAll chunks).count '\n'
      ∧ '\n' ∉ (ingestAll cfg st chunks).outputBuffer := by
  induction chunks with
  | nil =>
    intro st consumed h1 h2 h3 _
    simp only [ingestAll, List.foldl_nil, joinAll, List.append_nil]
    exact ⟨h1, h2, h3⟩
  | cons c cs ih =>
    intro st consumed h1 h2 h3 hle
    have hjc : joinAll (c :: cs) = c ++ joinAll cs := rfl
    rw [hjc, ← List.append_assoc] at hle
    have hle1 : (consumed ++ c).count '\n' ≤ cfg.maxBufferLines := by
      rw [List.count_append, List.count_append] at hle
      rw [List.count_append]
      omega
    have step := ingestChunk_no_evict cfg st c consumed h1 h2 h3 hle1
    have hrest := ih (ingestChunk cfg st c) (consumed ++ c) step.1 step.2.1 step.2.2 hle
    simp only [ingestAll, List.foldl_cons] at hrest ⊢
    rw [hjc, ← List.append_assoc]
    exact hrest

/-- C2 counterexample: with `maxBufferLines = 1`, ingesting the single chunk
`"a\nb\nc"` evicts the completed line `"a"`, so the concatenation of the
completed lines and the pending partial line is `"bc"`, not `"abc"` — the
round-trip fails once eviction occurs. -/
theorem c2_counterexample :
    ¬ (joinAll (ingestAll cfgMax1 freshState ["a\nb\nc".data]).outputLines
        ++ (ingestAll cfgMax1 freshState ["a\nb\nc".data]).outputBuffer
      = (joinAll ["a\nb\nc".data]).filter (fun c => decide (c ≠ '\n'))) := by decide

/-- C2 (amended): for every sequence of byte chunks fed to the stream data
handler, as long as the total number of line terminators does not exceed
`maxBufferLines` (so no eviction happens), concatenating all completed lines
in order plus the final pending partial line equals the original input with
the line terminators removed at the split points. -/
theorem c2_reassembly_roundtrip_amended (cfg : ShellConfig) (chunks : List Str)
    (hcap : (joinAll chunks).count '\n' ≤ cfg.maxBufferLines) :
    joinAll (ingestAll cfg freshState chunks).outputLines
        ++ (ingestAll cfg freshState chunks).outputBuffer
      = (joinAll chunks).filter (fun c => decide (c ≠ '\n')) := by
  have h := ingestAll_no_evict cfg chunks freshState []
    (by simp [freshState, joinAll]) (by simp [freshState]) (by simp [freshState])
    (by simpa using hcap)
  simpa using h.1

/-- Witness for C2: two chunks whose pieces reassemble across the chunk
boundary. -/
theorem c2_reassembly_roundtrip_witness :
    (joinAll ["ab\nc".data, "d\ne".data]).count '\n' ≤ DEFAULT_CONFIG.maxBufferLines
    ∧ joinAll (ingestAll DEFAULT_CONFIG freshState ["ab\nc".data, "d\ne".data]).outputLines
        ++ (ingestAll DEFAULT_CONFIG freshState ["ab\nc".data, "d\ne".data]).outputBuffer
      = (joinAll ["ab\nc".data, "d\ne".data]).filter (fun c => decide (c ≠ '\n')) :=
  ⟨by decide, c2_reassembly_roundtrip_amended DEFAULT_CONFIG _ (by decide)⟩

theorem ingestChunk_length_le (cfg : ShellConfig) (st : ShellState) (chunk : Str)
    (hN : 1 ≤ cfg.maxBufferLines) :
    (ingestChunk cfg st chunk).outputLines.length ≤ cfg.maxBufferLines := by
  by_cases hgt : cfg.maxBufferLines <
      (st.outputLines ++ (splitOnNL (st.outputBuffer ++ chunk)).dropLast).length
  · simp only [ingestChunk]
    rw [if_pos hgt, jsSlice_last _ _ hN, List.length_drop]
    omega
  · simp only [ingestChunk]
    rw [if_neg hgt]
    omega

theorem ingestChunk_suffix (cfg : ShellConfig) (st : ShellState) (chunk : Str) :
    List.IsSuffix (ingestChunk cfg st chunk).outputLines
      (st.outputLines ++ (splitOnNL (st.outputBuffer ++ chunk)).dropLast) := by
  by_cases hgt : cfg.maxBufferLines <
      (st.outputLines ++ (splitOnNL (st.outputBuffer ++ chunk)).dropLast).length
  · simp only [ingestChunk]
    rw [if_pos hgt]
    by_cases hN : cfg.maxBufferLines = 0
    · rw [hN]
      simp only [Nat.cast_zero, neg_zero]
      rw [jsSlice_all]
    · rw [jsSlice_last _ _ (Nat.pos_of_ne_zero hN)]
      exact List.drop_suffix _ _
  · simp only [ingestChunk]
    rw [if_neg hgt]

theorem ingestAll_length_le (cfg : ShellConfig) (chunks : List Str) (hN : 1 ≤ cfg.maxBufferLines) :
    ∀ st : ShellState, st.outputLines.length ≤ cfg.maxBufferLines →
      (ingestAll cfg st chunks).outputLines.length ≤ cfg.maxBufferLines := by
  induction chunks with
  | nil =>
    intro st h
    simpa [ingestAll] using h
  | cons c cs ih =>
    intro st _
    simp only [ingestAll, List.foldl_cons] at ih ⊢
    exact ih _ (ingestChunk_length_le cfg st c hN)

theorem splitOnNL_line (l : Str) (h : '\n' ∉ l) : splitOnNL (l ++ ['\n']) = [l, []] := by
  induction l with
  | nil => simp [splitOnNL]
  | cons c rest ih =>
    have hc : c ≠ '\n' := fun hEq => h (hEq ▸ List.mem_cons_self c rest)
    have hr : '\n' ∉ rest := fun hm => h (List.mem_cons_of_mem c hm)
    simp only [List.cons_append, splitOnNL]
    rw [if_neg hc]
    simp only [List.append_eq] at ih ⊢
    rw [ih hr]

theorem ingestChunk_full_line (cfg : ShellConfig) (st : ShellState) (l : Str)
    (hN : 1 ≤ cfg.maxBufferLines) (hl : '\n' ∉ l) (hb : st.outputBuffer = []) :
    (ingestChunk cfg st (l ++ ['\n'])).outputLines.length
        = min (st.outputLines.length + 1) cfg.maxBufferLines
    ∧ (ingestChunk cfg st (l ++ ['\n'])).outputBuffer = [] := by
  simp only [ingestChunk, hb, List.nil_append, splitOnNL_line l hl, List.dropLast,
    List.getLast?, Option.getD_some]
  constructor
  · split
    · next hgt =>
      rw [jsSlice_last _ _ hN, List.length_drop]
      simp only [List.length_append, List.length_cons, List.length_nil] at hgt ⊢
      omega
    · next hle =>
      simp only [List.length_append, List.length_cons, List.length_nil] at hle ⊢
      omega
  · rfl

theorem ingestAll_full_lines (cfg : ShellConfig) (ls : List Str) (hN : 1 ≤ cfg.maxBufferLines) :
    ∀ st : ShellState, st.outputBuffer = [] →
      st.outputLines.length ≤ cfg.maxBufferLines →
      (∀ l ∈ ls, '\n' ∉ l) →
      (ingestAll cfg st (ls.map (fun l => l ++ ['\n']))).outputLines.length
          = min (st.outputLines.length + ls.length) cfg.maxBufferLines
      ∧ (ingestAll cfg st (ls.map (fun l => l ++ ['\n']))).outputBuffer = [] := by
  induction ls with
  | nil =>
    intro st hb hlen _
    simp only [List.map_nil, ingestAll, List.foldl_nil, List.length_nil]
    constructor
    · omega
    · exact hb
  | cons l ls ih =>
    intro st hb hlen hnl
    have hl : '\n' ∉ l := hnl l (List.mem_cons_self l ls)
    have hrest : ∀ x ∈ ls, '\n' ∉ x := fun x hx => hnl x (List.mem_cons_of_mem l hx)
    have step := ingestChunk_full_line cfg st l hN hl hb
    have hlen' : (ingestChunk cfg st (l ++ ['\n'])).outputLines.length ≤ cfg.maxBufferLines := by
      rw [step.1]; omega
    have hrec := ih (ingestChunk cfg st (l ++ ['\n'])) step.2 hlen' hrest
    simp only [List.map_cons, ingestAll, List.foldl_cons] at hrec ⊢
    rw [hrec.1, step.1, List.length_cons]
    refine ⟨by omega, hrec.2⟩

/-- C3 counterexample: with `maxBufferLines = 0` the eviction code runs
`slice(-0)`, which keeps the whole array, so after ingesting one
terminator-ended line the completed-line buffer holds 1 > 0 lines — the claim
fails for that configuration. -/
theorem c3_counterexample :
    ¬ ((ingestChunk cfgMax0 freshState "a\n".data).outputLines.length
        ≤ cfgMax0.maxBufferLines) := by decide

/-- C3 (amended): for every configuration with `maxBufferLines = N ≥ 1` the
completed-line buffer never exceeds `N` lines after a chunk is ingested, the
surviving lines are a suffix of what the unevicted buffer would have been
(the oldest lines are the ones evicted), and after ingesting `N + k`
terminator-ended lines (`k ≥ 0`) from a fresh session `getBufferLineCount()`
equals `N`. -/
theorem c3_eviction_invariant_amended :
    (∀ (cfg : ShellConfig) (st : ShellState) (chunk : Str), 1 ≤ cfg.maxBufferLines →
        (ingestChunk cfg st chunk).outputLines.length ≤ cfg.maxBufferLines
        ∧ List.IsSuffix (ingestChunk cfg st chunk).outputLines
            (st.outputLines ++ (splitOnNL (st.outputBuffer ++ chunk)).dropLast))
    ∧ (∀ (cfg : ShellConfig) (chunks : List Str), 1 ≤ cfg.maxBufferLines →
        (ingestAll cfg freshState chunks).outputLines.length ≤ cfg.maxBufferLines)
    ∧ (∀ (cfg : ShellConfig) (ls : List Str), 1 ≤ cfg.maxBufferLines →
        cfg.maxBufferLines ≤ ls.length → (∀ l ∈ ls, '\n' ∉ l) →
        getBufferLineCount (ingestAll cfg freshState (ls.map (fun l => l ++ ['\n'])))
          = cfg.maxBufferLines) := by
  refine ⟨fun cfg st chunk hN => ⟨ingestChunk_length_le cfg st chunk hN, ingestChunk_suffix cfg st chunk⟩,
    fun cfg chunks hN => ingestAll_length_le cfg chunks hN freshState (by simp [freshState]),
    fun cfg ls hN hlen hnl => ?_⟩
  have h := ingestAll_full_lines cfg ls hN freshState rfl (by simp [freshState]) hnl
  rw [getBufferLineCount, h.2, if_pos rfl, h.1]
  simp only [freshState, List.length_nil, Nat.zero_add]
  omega

/-- Witness for C3: cap 2, three one-character terminator-ended lines, final
buffer line count exactly 2. -/
theorem c3_eviction_invariant_witness :
    1 ≤ cfgMax2.maxBufferLines
    ∧ getBufferLineCount
        (ingestAll cfgMax2 freshState ([['a'], ['b'], ['c']].map (fun l => l ++ ['\n'])))
      = cfgMax2.maxBufferLines :=
  ⟨by decide,
    c3_eviction_invariant_amended.2.2 cfgMax2 [['a'], ['b'], ['c']]
      (by decide) (by decide) (by decide)⟩

/-! Lemmas describing the output of `read` for the three count shapes. -/

theorem read_output_truthy (st : ShellState) (o m : Nat) (hm : 0 < m) (lines : Option Int)
    (heff : effectiveLinesOf lines = some (m : Int)) :
    (read st lines (some (o : Int)) false).1.output
      = assemble st ((st.outputLines.drop o).take m)
          (decide (st.outputLines.length ≤ o + m)) := by
  simp only [read, heff, Option.getD_some]
  have htru : optTruthy (some (m : Int)) = true := by
    simp only [optTruthy, decide_eq_true_eq]
    omega
  simp only [htru, Bool.true_eq_false, false_or, eq_self_iff_true, if_true]
  rw [jsSlice_drop_take]
  simp only [assemble]
  by_cases hb : st.outputBuffer = []
  · simp [hb]
  · by_cases hle : st.outputLines.length ≤ o + m
    · have h1 : ((st.outputLines.length : Int) ≤ (o : Int) + (m : Int)) := by omega
      simp [hb, hle, h1]
    · have h1 : ¬ ((st.outputLines.length : Int) ≤ (o : Int) + (m : Int)) := by omega
      simp [hb, hle, h1]

theorem read_output_falsy (st : ShellState) (o : Nat) (lines : Option Int)
    (heff : optTruthy (effectiveLinesOf lines) = false) :
    (read st lines (some (o : Int)) false).1.output
      = assemble st (st.outputLines.drop o) true := by
  simp only [read, heff, Option.getD_some, Bool.false_eq_true, if_false, eq_self_iff_true,
    true_or, if_true]
  have hslice : jsSlice st.outputLines (o : Int) ((st.outputLines.length : Nat) : Int)
      = st.outputLines.drop o := by
    rw [jsSlice_nat, List.take_length]
  rw [hslice]
  simp [assemble]

/-- C1 counterexample: on a buffer of 21 completed lines (`"a"` followed by
twenty `"b"`), `read` with count undefined returns the first 20 lines from
offset 0, which is not the most recent 20 lines of the buffer. -/
theorem c1_counterexample :
    (read st21 none none false).1.output ≠ joinNL (lastN 20 st21.outputLines) := by decide

/-- C1 (amended): `read` with `count` undefined returns up to 20 lines
starting at `offset` — the first 20 of the window, not the most recent 20;
`count = -1` returns the entire buffer from `offset`; any positive `count`
returns up to that many lines starting at `offset`.  The pending partial line
is appended exactly when the requested window reaches the end of the
completed-line buffer. -/
theorem c1_read_window_amended (st : ShellState) (o n : Nat) (hn : 0 < n) :
    ((read st none (some (o : Int)) false).1.output
        = assemble st ((st.outputLines.drop o).take 20)
            (decide (st.outputLines.length ≤ o + 20)))
    ∧ ((read st (some (-1)) (some (o : Int)) false).1.output
        = assemble st (st.outputLines.drop o) true)
    ∧ ((read st (some (n : Int)) (some (o : Int)) false).1.output
        = assemble st ((st.outputLines.drop o).take n)
            (decide (st.outputLines.length ≤ o + n))) := by
  refine ⟨read_output_truthy st o 20 (by omega) none (by norm_num [effectiveLinesOf]),
    read_output_falsy st o (some (-1)) (by decide),
    read_output_truthy st o n hn (some (n : Int)) ?_⟩
  simp only [effectiveLinesOf]
  rw [if_neg (by omega)]

/-- Witness for C1: positive count 2 on a three-line buffer. -/
theorem c1_read_window_witness :
    (0 : Nat) < 2
    ∧ (read stABC (some ((2 : Nat) : Int)) (some ((0 : Nat) : Int)) false).1.output
        = assemble stABC ((stABC.outputLines.drop 0).take 2)
            (decide (stABC.outputLines.length ≤ 0 + 2)) :=
  ⟨by decide, (c1_read_window_amended stABC 0 2 (by decide)).2.2⟩

/-- C9: `read` with `count = 0` behaves identically to `count = -1` (the
JavaScript code treats the effective count `0` as falsy), returning the entire
completed-line buffer plus the pending partial line rather than zero lines. -/
theorem c9_read_zero_count (st : ShellState) (off : Option Int) (clear : Bool) :
    read st (some 0) off clear = read st (some (-1)) off clear
    ∧ (read st (some 0) none false).1.output = fullJoin st := by
  constructor
  · simp only [read, effectiveLinesOf, optTruthy]
    norm_num
  · have h0 : read st (some 0) none false = read st (some 0) (some ((0 : Nat) : Int)) false := rfl
    rw [h0, read_output_falsy st 0 (some 0) (by decide), List.drop_zero]
    rfl

/-- C6: reading everything (`count = -1`), then reading everything with
`clear = true`, then reading everything again returns full content, full
content, and empty content respectively; the clear discards both the
completed-line buffer and the pending partial line, and only after the
returned result has been computed. -/
theorem c6_read_clear_sequence (st : ShellState) :
    ((read st (some (-1)) none false).1.output = fullJoin st)
    ∧ ((read st (some (-1)) none false).2 = st)
    ∧ ((read (read st (some (-1)) none false).2 (some (-1)) none true).1.output = fullJoin st)
    ∧ ((read (read st (some (-1)) none false).2 (some (-1)) none true).2
        = { st with outputLines := [], outputBuffer := [] })
    ∧ ((read (read (read st (some (-1)) none false).2 (some (-1)) none true).2
          (some (-1)) none false).1.output = [])
    ∧ ((read (read (read st (some (-1)) none false).2 (some (-1)) none true).2
          (some (-1)) none false).1.totalLines = 0) := by
  have hout : (read st (some (-1)) none false).1.output = fullJoin st := by
    have h0 : read st (some (-1)) none false = read st (some (-1)) (some ((0 : Nat) : Int)) false := rfl
    rw [h0, read_output_falsy st 0 (some (-1)) (by decide), List.drop_zero]
    rfl
  have h2 : (read st (some (-1)) none false).2 = st := rfl
  have houtClear : (read st (some (-1)) none true).1.output = fullJoin st := by
    have hsame : (read st (some (-1)) none true).1 = (read st (some (-1)) none false).1 := rfl
    rw [hsame, hout]
  have h3 : (read st (some (-1)) none true).2
      = { st with outputLines := [], outputBuffer := [] } := rfl
  refine ⟨hout, h2, ?_, ?_, ?_, ?_⟩
  · rw [h2]; exact houtClear
  · rw [h2]; exact h3
  · rw [h2, h3]; rfl
  · rw [h2, h3]; rfl

/-- C7: the prompt classifier first strips terminal control sequences and
trims whitespace, and any line whose cleaned form is empty is never a prompt;
concretely, `"user@host:~$ "` is classified as a prompt while
`"Downloading package..."` and `""` are not. -/
theorem c7_prompt_classifier :
    (∀ line : Str, cleanPromptLine line = [] → detectPrompt line = false)
    ∧ detectPrompt "user@host:~$ ".data = true
    ∧ detectPrompt "Downloading package...".data = false
    ∧ detectPrompt "".data = false := by
  refine ⟨fun line h => ?_, by decide, by decide, by decide⟩
  simp [detectPrompt, h]

/-- Witness for C7: a whitespace-only line cleans to empty and is rejected. -/
theorem c7_prompt_classifier_witness :
    cleanPromptLine "  ".data = [] ∧ detectPrompt "  ".data = false :=
  ⟨by decide, c7_prompt_classifier.1 "  ".data (by decide)⟩

/-- C8: `sendSignal` maps exactly the three names `SIGINT`, `SIGTSTP` and
`SIGQUIT` to the single control characters `0x03`, `0x1a` and `0x1c`; on an
open channel it writes exactly that one character and returns `true`; it
returns `false` and writes nothing when the channel is closed or the name is
not one of the three. -/
theorem c8_send_signal :
    (∀ st : ShellState, st.shellOpen = true →
        sendSignal st "SIGINT".data = (true, [['\x03']])
        ∧ sendSignal st "SIGTSTP".data = (true, [['\x1a']])
        ∧ sendSignal st "SIGQUIT".data = (true, [['\x1c']]))
    ∧ (∀ (st : ShellState) (signal : Str), st.shellOpen = false →
        sendSignal st signal = (false, []))
    ∧ (∀ (st : ShellState) (signal : Str),
        signal ≠ "SIGINT".data → signal ≠ "SIGTSTP".data → signal ≠ "SIGQUIT".data →
        sendSignal st signal = (false, [])) := by
  refine ⟨fun st h => ?_, fun st signal h => ?_, fun st signal h1 h2 h3 => ?_⟩
  · refine ⟨?_, ?_, ?_⟩ <;> (simp only [sendSignal, h, Bool.true_eq_false, if_false]; rfl)
  · simp [sendSignal, h]
  · have hsc : signalChar signal = none := by
      simp only [signalChar]
      rw [if_neg h1, if_neg h2, if_neg h3]
    by_cases hopen : st.shellOpen = false
    · simp [sendSignal, hopen]
    · simp [sendSignal, hopen, hsc]

/-- Witness for C8: each branch at a concrete state and signal name. -/
theorem c8_send_signal_witness :
    freshState.shellOpen = true
    ∧ sendSignal freshState "SIGINT".data = (true, [['\x03']])
    ∧ sendSignal stClosed "SIGINT".data = (false, [])
    ∧ sendSignal freshState "SIGHUP".data = (false, []) :=
  ⟨rfl, (c8_send_signal.1 freshState rfl).1,
    c8_send_signal.2.1 stClosed "SIGINT".data rfl,
    c8_send_signal.2.2 freshState "SIGHUP".data (by decide) (by decide) (by decide)⟩

/-- C10: on an open shell, `send` resets the pending partial line to empty
before writing `input + "\n"` to the channel; the completed-line buffer is
left unchanged by the submission, and a subsequent full read no longer
contains the dropped partial bytes. -/
theorem c10_send_resets_pending (st : ShellState) (input : Str) (h : st.shellOpen = true) :
    (sendPrep st input).1 = { st with outputBuffer := [] }
    ∧ (sendPrep st input).2.1 = [input ++ ['\n']]
    ∧ (sendPrep st input).2.2 = some st.outputLines.length
    ∧ (sendPrep st input).1.outputLines = st.outputLines
    ∧ (read (sendPrep st input).1 (some (-1)) none false).1.output
        = joinNL st.outputLines := by
  have hs : sendPrep st input
      = ({ st with outputBuffer := [] }, [input ++ ['\n']], some st.outputLines.length) := by
    simp [sendPrep, h]
  refine ⟨by rw [hs], by rw [hs], by rw [hs], by rw [hs], ?_⟩
  rw [hs]
  have hfa := read_output_falsy { st with outputBuffer := ([] : Str) } 0 (some (-1)) (by decide)
  have h0 : read { st with outputBuffer := ([] : Str) } (some (-1)) none false
      = read { st with outputBuffer := ([] : Str) } (some (-1)) (some ((0 : Nat) : Int)) false := rfl
  rw [h0, hfa, List.drop_zero]
  simp [assemble]

/-- Witness for C10: an open session holding the pending bytes `"pq"`. -/
theorem c10_send_resets_pending_witness :
    stPartial.shellOpen = true
    ∧ (sendPrep stPartial "ls".data).1 = { stPartial with outputBuffer := [] }
    ∧ (read (sendPrep stPartial "ls".data).1 (some (-1)) none false).1.output
        = joinNL stPartial.outputLines :=
  ⟨rfl, (c10_send_resets_pending stPartial "ls".data rfl).1,
    (c10_send_resets_pending stPartial "ls".data rfl).2.2.2.2⟩

/-- C4: whenever a poll tick observes `elapsed ≤ quickTimeout`, the last
visible line classified as a prompt, and `stableCount ≥ 2`, it resolves at
that tick with all new lines (plus the pending partial line) as output,
`complete = true`, and `slow` and `truncated` absent (the falsy
`x || undefined` collapse); the underlying buffers are left unchanged. -/
theorem c4_fast_complete (mgrCfg cfg : ShellConfig) (st : ShellState) (slc : Nat) (obs : PollObs)
    (h1 : obs.elapsed ≤ cfg.quickTimeout)
    (h2 : detectPrompt (lastVisibleLine st slc) = true)
    (h3 : 2 ≤ obs.stableCount) :
    ∃ r, (pollTick mgrCfg cfg st slc obs).1 = some r
      ∧ r.output = joinNL (st.outputLines.drop slc)
            ++ (if st.outputBuffer = [] then [] else '\n' :: st.outputBuffer)
      ∧ r.totalLines = (st.outputLines.drop slc).length
      ∧ r.complete = true
      ∧ r.slow = none
      ∧ r.truncated = none
      ∧ r.waiting = none
      ∧ (pollTick mgrCfg cfg st slc obs).2 = st := by
  simp only [pollTick]
  rw [if_pos ⟨h1, h2, h3⟩]
  exact ⟨_, rfl, rfl, rfl, rfl, rfl, rfl, rfl, True.intro⟩

/-- Witness for C4, the echo scenario: `"hi"` completed, the prompt pending,
elapsed 300 ms, two stable ticks; the output contains the echoed text. -/
theorem c4_fast_complete_witness :
    ∃ r, (pollTick DEFAULT_CONFIG DEFAULT_CONFIG stEcho 0 obsEcho).1 = some r
      ∧ r.output = joinNL (stEcho.outputLines.drop 0)
            ++ (if stEcho.outputBuffer = [] then [] else '\n' :: stEcho.outputBuffer)
      ∧ r.totalLines = (stEcho.outputLines.drop 0).length
      ∧ r.complete = true
      ∧ r.slow = none
      ∧ r.truncated = none
      ∧ r.waiting = none
      ∧ (pollTick DEFAULT_CONFIG DEFAULT_CONFIG stEcho 0 obsEcho).2 = stEcho :=
  c4_fast_complete DEFAULT_CONFIG DEFAULT_CONFIG stEcho 0 obsEcho
    (by decide) (by decide) (by decide)

/-- C5: whenever a poll tick observes `elapsed > maxTimeout` (under a sane
configuration, `quickTimeout ≤ maxTimeout` and `maxLines ≥ 1`), it resolves at
that tick with only the most recent `maxLines` of the new lines in the output
(plus the pending partial line), `truncated` set exactly when the new lines
exceed the cap, `complete` equal to the prompt test, `waiting` equal to its
negation — and the underlying completed-line buffer is left unchanged (the
excess lines are discarded from the returned window only). -/
theorem c5_timeout_truncated (mgrCfg cfg : ShellConfig) (st : ShellState) (slc : Nat)
    (obs : PollObs)
    (hqm : cfg.quickTimeout ≤ cfg.maxTimeout)
    (hml : 0 < cfg.maxLines)
    (h : cfg.maxTimeout < obs.elapsed) :
    ∃ r, (pollTick mgrCfg cfg st slc obs).1 = some r
      ∧ r.output = joinNL (lastN cfg.maxLines (st.outputLines.drop slc))
            ++ (if st.outputBuffer = [] then [] else '\n' :: st.outputBuffer)
      ∧ r.totalLines = (st.outputLines.drop slc).length
      ∧ r.truncated = (if cfg.maxLines < (st.outputLines.drop slc).length then some true else none)
      ∧ r.complete = detectPrompt (lastVisibleLine st slc)
      ∧ (detectPrompt (lastVisibleLine st slc) = true → r.waiting = none)
      ∧ (detectPrompt (lastVisibleLine st slc) = false → r.waiting = some true)
      ∧ (pollTick mgrCfg cfg st slc obs).2 = st := by
  have hnA : ¬ (obs.elapsed ≤ cfg.quickTimeout
      ∧ detectPrompt (lastVisibleLine st slc) = true ∧ 2 ≤ obs.stableCount) := by
    rintro ⟨hA, -, -⟩
    omega
  have hnB : ¬ (cfg.quickTimeout < obs.elapsed ∧ obs.elapsed ≤ cfg.maxTimeout
      ∧ detectPrompt (lastVisibleLine st slc) = true ∧ 2 ≤ obs.stableCount) := by
    rintro ⟨-, hB, -, -⟩
    omega
  simp only [pollTick]
  rw [if_neg hnA, if_neg hnB, if_pos h]
  refine ⟨_, rfl, ?_, ?_, ?_, ?_, ?_, ?_, ?_⟩
  · simp only [buildResult]
    by_cases hT : cfg.maxLines < (st.outputLines.drop slc).length
    · rw [if_pos (show decide (cfg.maxLines < (st.outputLines.drop slc).length) = true by
        simpa using hT)]
      rw [jsSlice_last _ _ hml]
      simp only [lastN]
    · rw [if_neg (show ¬ decide (cfg.maxLines < (st.outputLines.drop slc).length) = true by
        simpa using hT)]
      simp only [lastN]
      have hz : (st.outputLines.drop slc).length - cfg.maxLines = 0 := by omega
      rw [hz, List.drop_zero]
  · simp only [buildResult]
  · simp only [buildResult, decide_eq_true_eq]
  · simp only [buildResult]
  · intro hP
    simp [buildResult, hP]
  · intro hP
    simp [buildResult, hP]
  · trivial

/-- Witness for C5: 201 new one-character lines with the default 200-line cap
and 5100 ms elapsed. -/
theorem c5_timeout_truncated_witness :
    ∃ r, (pollTick DEFAULT_CONFIG DEFAULT_CONFIG stLong 0 obsLong).1 = some r
      ∧ r.output = joinNL (lastN DEFAULT_CONFIG.maxLines (stLong.outputLines.drop 0))
            ++ (if stLong.outputBuffer = [] then [] else '\n' :: stLong.outputBuffer)
      ∧ r.totalLines = (stLong.outputLines.drop 0).length
      ∧ r.truncated
          = (if DEFAULT_CONFIG.maxLines < (stLong.outputLines.drop 0).length then some true
             else none)
      ∧ r.complete = detectPrompt (lastVisibleLine stLong 0)
      ∧ (detectPrompt (lastVisibleLine stLong 0) = true → r.waiting = none)
      ∧ (detectPrompt (lastVisibleLine stLong 0) = false → r.waiting = some true)
      ∧ (pollTick DEFAULT_CONFIG DEFAULT_CONFIG stLong 0 obsLong).2 = stLong :=
  c5_timeout_truncated DEFAULT_CONFIG DEFAULT_CONFIG stLong 0 obsLong
    (by decide) (by decide) (by decide)

end ShellMgr
